import Mathlib

/-!
Verification of the CatLearn repository (files `atoml/graph.py` and
`atoml/model_build.py`) against its natural-language specification.

The Python sources are shallowly embedded below.  Numeric values computed by
the code are modelled as rationals (`ℚ`); quantities produced by `sqrt` /
`log` are modelled as reals (`ℝ`).  A Python function that can raise is
embedded as a function into `Except PyErr _`; a Python function that can
return `None` or a value is embedded with `Option`.  External collaborators
(the screening, lasso, PCA, ridge and predictor primitives imported from
sibling modules that are not part of the analysed sources) are abstracted as
fields of an `Ext` record and passed to every pipeline function.
-/

namespace CatLearn

/-- Python exceptions that the embedded code can raise: `assert` failure,
calling a function with an unexpected keyword argument (TypeError), reading
a local variable before assignment (UnboundLocalError), reading an unbound
name (NameError), and indexing an empty sequence (IndexError). -/
inductive PyErr where
  | assertionError : PyErr
  | typeError : PyErr
  | unboundLocal : PyErr
  | nameError : PyErr
  | indexError : PyErr
deriving DecidableEq, Repr

/-- A feature matrix: a list of rows, each row a list of rational entries. -/
abbrev Mat := List (List ℚ)

/-- Embedding of `np.delete(row_like_vector, idx, axis=0)`: keep the entries
whose position is not listed in `idx`. -/
def npDeleteVec {α : Type} (r : List α) (idx : List ℕ) : List α :=
  (r.enum.filter (fun p => !(idx.contains p.1))).map Prod.snd

/-- Embedding of `np.delete(matrix, idx, axis=1)`: drop the listed column
indices from every row. -/
def npDeleteCols (m : Mat) (idx : List ℕ) : Mat :=
  m.map (fun r => npDeleteVec r idx)

/-- Dot product of two coefficient vectors (`np.dot` on equal-length 1-D
arrays; the embedding truncates to the shorter length). -/
def dot (a b : List ℚ) : ℚ :=
  ((a.zip b).map (fun p => p.1 * p.2)).sum

/-- External collaborators of `model_build.py`.  Each field abstracts one of
the functions imported from the sibling modules `feature_select`,
`fingerprint_setup`, `predict`, `fit_funcs` and `fpm_operations`, which are
outside the analysed sources; only the argument lists actually used by
`model_build.py` are modelled. -/
structure Ext where
  /-- `clean_zero(train, test)`: returns the cleaned train matrix, the
  cleaned test matrix and the dropped column indices (`c['train']`,
  `c['test']`, `c['index']`). -/
  clean_zero : Mat → Option Mat → Mat × Option Mat × List ℕ
  /-- `standardize(train, test)`: returns the standardized train and test
  matrices (`std['train']`, `std['test']`). -/
  standardize : Mat → Option Mat → Mat × Option Mat
  /-- `FitnessPrediction(...).get_predictions(...)` reduced to the only field
  the pipeline reads, `p['validation_rmse']['average']`; arguments are the
  kernel width, the regularization, the train matrix, the test matrix, the
  train target and the test target. -/
  get_predictions : ℚ → ℚ → Mat → Option Mat → List ℚ → Option (List ℚ) → ℚ
  /-- `find_optimal_regularization(X, Y, p=0, Ns=100)`. -/
  find_optimal_regularization : Mat → List ℚ → ℚ
  /-- `RR(X, Y, p=0, omega2=b, W2=None, Vh=None)[0]`: the coefficient
  vector. -/
  RR : Mat → List ℚ → ℚ → List ℚ
  /-- `lasso(size, target, train_matrix, test_matrix, alpha, max_iter,
  test_target, steps)` reduced to the three fields read by `lasso_opt`:
  `las['linear_error']`, `las['min_features']`, `las['order']`. -/
  lasso : ℕ → List ℚ → Mat → Option Mat → Option (List ℚ) → ℚ → ℚ → ℕ →
    List ℚ × ℕ × List ℕ
  /-- `iterative_screening(target, train_fpv, test_fpv, size, step, method,
  corr, feature_names, cleanup=False)` reduced to the rejected column list
  `screen['rejected']`. -/
  iterative_screening : List ℚ → Mat → Option Mat → ℕ → ℤ → String → String →
    Option (List String) → List ℕ
  /-- `robust_rank_correlation_screening(target, train_fpv, size, corr,
  writeout=False)` reduced to `screen['rejected']`. -/
  rr_screen : List ℚ → Mat → ℕ → String → List ℕ
  /-- `sure_independence_screening(target, train_fpv, size, writeout=False)`
  reduced to `screen['rejected']`. -/
  sure_screen : List ℚ → Mat → ℕ → List ℕ
  /-- `pca(components, train_fpv, test_fpv)`: the projected train and test
  matrices (`comp['train_fpv']`, `comp['test_fpv']`). -/
  pca : ℕ → Mat → Option Mat → Mat × Option Mat
  /-- `get_order_2(m)`. -/
  get_order_2 : Mat → Mat
  /-- `get_div_order_2(m)`. -/
  get_div_order_2 : Mat → Mat
  /-- `get_order_2ab(m, a, b)`. -/
  get_order_2ab : Mat → ℚ → ℚ → Mat
  /-- `get_ablog(m, a, b)`. -/
  get_ablog : Mat → ℚ → ℚ → Mat
  /-- `get_labels_order_2(names, div)`. -/
  get_labels_order_2 : List String → Bool → List String
  /-- `get_labels_order_2ab(names, a, b)`. -/
  get_labels_order_2ab : List String → ℚ → ℚ → List String
  /-- `get_labels_ablog(names, a, b)`. -/
  get_labels_ablog : List String → ℚ → ℚ → List String

/-- Configuration stored by `ModelBuilder.__init__`.  The Python code stores
strings for the screening method and correlation; the `is` comparisons it
later performs on short interned literals are modelled as string equality.
The db names and flags only control external persistence, which has no
effect on the returned values, so they are omitted together with `db_name`.
`clean_features` is stored but never read by the source, exactly as in
Python. -/
structure Cfg where
  screening_method : String
  screening_correlation : String
  initial_prediction : Bool
  clean_features : Bool
  expand : Bool
  optimize : Bool
  size : Option ℕ
  width : ℚ
  regularization : ℚ

/-! ### graph.py -/

/-- An atom of an `ase` atoms object: a 3-D position and an atomic number.
The atom's `index` is its position in the containing list. -/
structure PyAtom where
  position : ℝ × ℝ × ℝ
  number : ℕ

instance : Inhabited PyAtom := ⟨⟨(0, 0, 0), 0⟩⟩

/-- Euclidean norm of the difference of two positions,
`np.linalg.norm(pi - pj)`. -/
noncomputable def norm3 (p q : ℝ × ℝ × ℝ) : ℝ :=
  Real.sqrt ((p.1 - q.1) ^ 2 + (p.2.1 - q.2.1) ^ 2 + (p.2.2 - q.2.2) ^ 2)

open Classical in
/-- `get_neighborlist(atoms, dx, neighbor_number)`: the dictionary mapping
each atom index to the list of indices of its neighbors, embedded as a
function on indices.  `cr` abstracts the external `ase.data.covalent_radii`
table indexed by atomic number.  For each pair the code requires
`atomi.index != atomj.index` and `d_max1 < d < d_max2` with `d_max1 = 0`
when `neighbor_number == 1`, else `(neighbor_number-1)*(crj+cri)+dx`, and
`d_max2 = neighbor_number*(crj+cri)+dx`. -/
noncomputable def get_neighborlist (cr : ℕ → ℝ) (atoms : List PyAtom)
    (dx : ℝ) (neighbor_number : ℕ) : ℕ → List ℕ := fun i =>
  let atomi := atoms.getD i default
  (atoms.enum.filter (fun ja =>
    decide (i ≠ ja.1 ∧
      (if neighbor_number = 1 then (0 : ℝ)
       else ((neighbor_number - 1 : ℕ) : ℝ) *
         (cr ja.2.number + cr atomi.number) + dx)
        < norm3 atomi.position ja.2.position ∧
      norm3 atomi.position ja.2.position
        < (neighbor_number : ℝ) * (cr ja.2.number + cr atomi.number) + dx))).map
    Prod.fst

/-- `connection_matrix(atoms, dx)`: the binary N×N matrix with entry 1 when
`j in nl[i]`.  The optional `nlPre` argument models the cached neighborlist
read from `atoms.info['key_value_pairs']`; `none` is the branch that calls
`get_neighborlist` (always with `neighbor_number = 1`, its default). -/
noncomputable def connection_matrix (cr : ℕ → ℝ) (atoms : List PyAtom)
    (dx : ℝ) (nlPre : Option (ℕ → List ℕ)) : List (List ℝ) :=
  let nl := match nlPre with
    | some nl => nl
    | none => get_neighborlist cr atoms dx 1
  (List.range atoms.length).map (fun i =>
    (List.range atoms.length).map (fun j => if j ∈ nl i then (1 : ℝ) else 0))

/-- `generalized_matrix(cm)`: for each row `i` of the connections matrix the
code accumulates `tot += sum(i)` once per nonzero entry `i[j]` and divides
by 12. -/
def generalized_matrix (cm : List (List ℚ)) : List ℚ :=
  cm.map (fun i =>
    ((List.range i.length).foldl
      (fun tot j => if i.getD j 0 ≠ 0 then tot + i.sum else tot) 0) / 12)

/-- Modelled from the spec (for comparison with `generalized_matrix`): the
spec's formula "per-atom scalar, = (sum of the connected atoms' own
connectivity degree) / 12", where atom `j` is connected to `i` when entry
`(i,j)` is nonzero and the degree of `j` is the sum of row `j`. -/
def generalized_matrix_specform (cm : List (List ℚ)) : List ℚ :=
  cm.map (fun i =>
    ((List.range i.length).foldl
      (fun tot j => if i.getD j 0 ≠ 0 then tot + (cm.getD j []).sum else tot)
      0) / 12)

/-! ### model_build.py -/

/-- `ModelBuilder.make_prediction(train_matrix, test_matrix, train_target,
test_target=None, opt_h=False)` reduced to the validation-RMSE average the
pipeline reads, for the `opt_h=False` path (which cannot raise). -/
def prediction_rmse (ext : Ext) (cfg : Cfg) (train : Mat) (test : Option Mat)
    (target : List ℚ) (ttgt : Option (List ℚ)) : ℚ :=
  ext.get_predictions cfg.width cfg.regularization train test target ttgt

/-- `ModelBuilder.make_prediction`.  When `opt_h` is true the code executes
`self.hyp_opt(features=sf, train_target=train_target, width=self.width,
reg=self.regularization)`, but `hyp_opt(self, features, train_target)`
accepts no keyword arguments named `width` or `reg`, so the call raises
`TypeError` before `hyp_opt`'s body (and hence the optimizer) ever runs.  On
success the result carries the (unchanged) configuration, standing for
`self.width` / `self.regularization` after the call. -/
def make_prediction (ext : Ext) (cfg : Cfg) (train : Mat) (test : Option Mat)
    (target : List ℚ) (ttgt : Option (List ℚ)) (opt_h : Bool) :
    Except PyErr (ℚ × Cfg) :=
  if opt_h then .error .typeError
  else .ok (prediction_rmse ext cfg train test target ttgt, cfg)

/-- `ModelBuilder.expand_matrix(feature_matrix, feature_names=None,
return_names=True)`.  `np.concatenate(..., axis=1)` is embedded as row-wise
append; when `return_names` is true the label lists produced by the external
labelling helpers are appended to the names (`feature_names += ...`). -/
def expand_matrix (ext : Ext) (feature_matrix : Mat)
    (feature_names : List String) (return_names : Bool) : Mat × List String :=
  let order_2 := ext.get_order_2 feature_matrix
  let div_order_2 := ext.get_div_order_2 feature_matrix
  let order_2ab := ext.get_order_2ab feature_matrix 2 4
  let ablog := ext.get_ablog feature_matrix 2 4
  let fm := (((feature_matrix.zipWith (· ++ ·) order_2).zipWith (· ++ ·)
    div_order_2).zipWith (· ++ ·) order_2ab).zipWith (· ++ ·) ablog
  let names := if return_names then
      feature_names ++ ext.get_labels_order_2 feature_names false
        ++ ext.get_labels_order_2 feature_names true
        ++ ext.get_labels_order_2ab feature_names 2 4
        ++ ext.get_labels_ablog feature_names 2 4
    else feature_names
  (fm, names)

/-- `ModelBuilder.ridge_regression(train_matrix, train_target,
feature_names, test_matrix=None, test_target=None)`.  The function computes
the coefficients, computes `error` only inside `if test_matrix is not
None:`, sorts `zip(abs(coef), order, feature_names)` descending by the first
component (Python's stable `sorted` with `reverse=True`, embedded as a
stable insertion sort), and then unconditionally executes
`return sort_list, error`: when no test matrix was supplied `error` was
never assigned and the return raises `UnboundLocalError`.  A `None`
`feature_names` makes the `zip` raise `TypeError`; a `None` `test_target`
next to a real test matrix makes the error-loop `zip` raise `TypeError`. -/
noncomputable def ridge_regression (ext : Ext) (train : Mat)
    (target : List ℚ) (names : Option (List String)) (test : Option Mat)
    (ttgt : Option (List ℚ)) :
    Except PyErr ((List ℚ × List ℕ × List String) × ℝ) :=
  let b := ext.find_optimal_regularization train target
  let coef := ext.RR train target b
  match names with
  | none => .error .typeError
  | some ns =>
    let order := List.range coef.length
    let sorted := List.insertionSort (fun x y : ℚ × ℕ × String => y.1 ≤ x.1)
      ((coef.map (fun x => |x|)).zip (order.zip ns))
    let sort_list := (sorted.map (fun t => t.1), sorted.map (fun t => t.2.1),
      sorted.map (fun t => t.2.2))
    match test, ttgt with
    | some te, some tt =>
      let sumd := ((te.zip tt).map (fun ij => (dot coef ij.1 - ij.2) ^ 2)).sum
      let err : ℝ := Real.sqrt ((sumd / (te.length : ℚ) : ℚ) : ℝ)
      .ok (sort_list, err)
    | some _, none => .error .typeError
    | none, _ => .error .unboundLocal

/-- `ModelBuilder.lasso_opt(size, train_target, train_matrix, test_matrix,
test_target, alpha, max_iter, steps)`: reads `min(las['linear_error'])`,
`las['min_features']` and `las['order']` from the external lasso primitive
(`min` of an empty list would raise in Python; the embedding defaults to 0,
a value no claim depends on). -/
def lasso_opt (ext : Ext) (size : ℕ) (target : List ℚ) (train : Mat)
    (test : Option Mat) (ttgt : Option (List ℚ)) (alpha max_iter : ℚ)
    (steps : ℕ) : ℚ × ℕ × List ℕ :=
  let las := ext.lasso size target train test ttgt alpha max_iter steps
  ((las.1.min?).getD 0, las.2.1, las.2.2)

/-- Python `round(x, 0)` followed by `int(...)`, then the floor-to-one step
`if s == 0: s = 1` of `ModelBuilder.screening`:
`s = int(round(log(d/n)**0.5, 0))`.  Mathlib's `round` breaks ties upward
while Python rounds half to even; the two agree here because
`sqrt(log(d/n))` is never exactly a half-integer (`log` of a rational other
than 1 is transcendental). -/
noncomputable def stepSize (d n : ℕ) : ℤ :=
  let s := round (Real.sqrt (Real.log ((d : ℝ) / (n : ℝ))))
  if s = 0 then 1 else s

/-- `ModelBuilder.screening(train_matrix, train_target, feature_names,
test_matrix=None, test_target=None)`: when `d > 2 * n` the iterative
screening primitive is used with step `stepSize d n`; otherwise the method
string selects `robust_rank_correlation_screening` or
`sure_independence_screening` (the Python `is` comparisons on interned
literals are modelled as equality) and any other method leaves `screen`
unbound, raising `NameError` at the first use.  The rejected columns are
then dropped from the train matrix, from the test matrix (when present) and
from the feature-name list in the same statement block. -/
noncomputable def screening_select (ext : Ext) (cfg : Cfg) (train : Mat)
    (target : List ℚ) (names : Option (List String)) (test : Option Mat) :
    Except PyErr (List ℕ) :=
  let n := train.length
  let d := (train.headD []).length
  let s := stepSize d n
  if d > 2 * n then
    .ok (ext.iterative_screening target train test n s
      cfg.screening_method cfg.screening_correlation names)
  else if cfg.screening_method = "rrcs" then
    .ok (ext.rr_screen target train n cfg.screening_correlation)
  else if cfg.screening_method = "sis" then
    .ok (ext.sure_screen target train n)
  else .error .nameError

/-- The column-dropping epilogue of `ModelBuilder.screening`: the rejected
columns selected by `screening_select` are removed from the train matrix,
the test matrix (when present) and the feature-name list together. -/
noncomputable def screening (ext : Ext) (cfg : Cfg) (train : Mat)
    (target : List ℚ) (names : Option (List String)) (test : Option Mat) :
    Except PyErr (Mat × Option Mat × Option (List String)) :=
  (screening_select ext cfg train target names test).map (fun rej =>
    (npDeleteCols train rej, test.map (fun te => npDeleteCols te rej),
      names.map (fun ns => npDeleteVec ns rej)))

/-- `ModelBuilder.pca_opt(max_comp, ...)`: loops `for c in range(1,
max_comp)`, tracking the best validation RMSE together with the component
count `cc` and `cs = max_comp`.  When the loop body never runs the Python
function would raise `UnboundLocalError` at its `return` (`cc`, `cs` never
assigned); that state is the `none` value. -/
def pca_opt (ext : Ext) (cfg : Cfg) (max_comp : ℕ) (train : Mat)
    (test : Option Mat) (target : List ℚ) (ttgt : Option (List ℚ)) :
    Option (ℚ × ℕ × ℕ) :=
  (List.range' 1 (max_comp - 1)).foldl
    (fun st c =>
      let comp := ext.pca c train test
      let pc := prediction_rmse ext cfg comp.1 comp.2 target ttgt
      match st with
      | none => some (pc, c, max_comp)
      | some (bp, cc, cs) =>
        if pc < bp then some (pc, c, max_comp) else some (bp, cc, cs))
    none

/-- The `for s in range(1, limit + 1)` search of
`ModelBuilder.reduce_matrix` under `if self.optimize:`.  State:
`best_p1` (`none` is the initial `float('inf')`), `best_size`
(initially `self.size`), and the last `pcar` result (`none` when no
iteration with `s > 1` ever assigned `best_pca, cc, cs`).  Each step deletes
the columns `mo[s:]`, re-predicts, and updates the running best. -/
def optimizeLoop (ext : Ext) (cfg : Cfg) (train : Mat) (test : Option Mat)
    (target : List ℚ) (ttgt : Option (List ℚ)) (mo : List ℕ) (lim : ℕ) :
    Option ℚ × Option ℕ × Option (ℚ × ℕ × ℕ) :=
  (List.range' 1 lim).foldl
    (fun st s =>
      let remove := mo.drop s
      let rtrain := npDeleteCols train remove
      let rtest := test.map (fun te => npDeleteCols te remove)
      let p := prediction_rmse ext cfg rtrain rtest target ttgt
      let upd : Option ℚ × Option ℕ :=
        match st.1 with
        | none => (some p, some s)
        | some bp => if p < bp then (some p, some s) else (st.1, st.2.1)
      let pc := if s > 1 then pca_opt ext cfg s rtrain rtest target ttgt
        else st.2.2
      (upd.1, upd.2, pc))
    (none, cfg.size, none)

/-- Tail of `ModelBuilder.reduce_matrix` after the screening stage (source
lines 329-384): ridge ranking (which rebinds `feature_names` to the sorted
name list), lasso ordering, the optional size search, and the final
truncation `remove_features = mo[best_size:]` applied to the train and test
matrices (but not to the name list).  `n` and `d` are the row/column counts
computed at the top of `reduce_matrix` from the pre-screening matrix.  A
slice `mo[None:]` (when `best_size` is `None`) is the whole of `mo`,
i.e. `drop 0`.  When `optimize` is set and the loop never reached an
iteration with `s > 1`, the closing `print` reads the unassigned `best_pca`
and raises `UnboundLocalError`. -/
noncomputable def reduce_post (ext : Ext) (cfg : Cfg) (train : Mat)
    (target : List ℚ) (names : Option (List String)) (test : Option Mat)
    (ttgt : Option (List ℚ)) (limit : Option ℕ) (n d : ℕ) :
    Except PyErr (List String × Mat × Option Mat) :=
  (ridge_regression ext train target names test ttgt).bind (fun lin =>
    let names2 := lin.1.2.2
    let lass := lasso_opt ext d target train test ttgt (1 / 10) 1000000 20
    let mo := lass.2.2
    ((if cfg.optimize then
        (let lim := (limit.getD n)
         let st := optimizeLoop ext cfg train test target ttgt mo lim
         match st.2.2 with
         | none => (.error .unboundLocal : Except PyErr (Option ℕ))
         | some _ => .ok st.2.1)
      else .ok cfg.size)).bind (fun best_size =>
      let remove := mo.drop (best_size.getD 0)
      .ok (names2, npDeleteCols train remove,
        test.map (fun te => npDeleteCols te remove))))

/-- The `if limit is not None: assert limit <= d` guard of
`reduce_matrix`. -/
def limit_ok (limit : Option ℕ) (d : ℕ) : Bool :=
  match limit with
  | some l => decide (l ≤ d)
  | none => true

/-- `ModelBuilder.reduce_matrix(train_matrix, train_target, feature_names,
test_matrix=None, test_target=None, limit=None)`: computes `n` and `d`,
checks `assert limit <= d` when a limit is given, screens only when
`d > n`, and continues with `reduce_post`. -/
noncomputable def reduce_matrix (ext : Ext) (cfg : Cfg) (train : Mat)
    (target : List ℚ) (names : Option (List String)) (test : Option Mat)
    (ttgt : Option (List ℚ)) (limit : Option ℕ) :
    Except PyErr (List String × Mat × Option Mat) :=
  let n := train.length
  let d := (train.headD []).length
  if limit_ok limit d then
    (if d > n then screening ext cfg train target names test
     else .ok (train, test, names)).bind (fun x =>
      reduce_post ext cfg x.1 target x.2.2 x.2.1 ttgt limit n d)
  else .error .assertionError

/-- `ModelBuilder.build_model(train_matrix, train_target, feature_names,
..., limit=None)`: zero-variance cleaning (with the identical deletion
applied to the names when they are not `None`), standardization, the
`assert len(train_matrix[0]) > self.size` check when a fixed size is
configured (an empty standardized matrix would make `train_matrix[0]` raise
`IndexError`), the optional initial prediction, and the reduction. -/
noncomputable def build_model (ext : Ext) (cfg : Cfg) (train : Mat)
    (target : List ℚ) (feature_names : Option (List String))
    (test : Option Mat) (ttgt : Option (List ℚ)) (limit : Option ℕ) :
    Except PyErr (List String × Mat × Option Mat) :=
  let c := ext.clean_zero train test
  let train1 := c.1
  let test1 := c.2.1
  let names1 := feature_names.map (fun ns => npDeleteVec ns c.2.2)
  let std := ext.standardize train1 test1
  let train2 := std.1
  let test2 := std.2
  ((match cfg.size with
    | some s =>
      match train2.head? with
      | none => (.error .indexError : Except PyErr Unit)
      | some r0 => if r0.length > s then .ok () else .error .assertionError
    | none => .ok ())).bind (fun _ =>
    ((if cfg.initial_prediction then
        (make_prediction ext cfg train2 test2 target ttgt false).map
          (fun _ => ())
      else .ok ())).bind (fun _ =>
      reduce_matrix ext cfg train2 target names1 test2 ttgt limit))

/-- `ModelBuilder.from_matrix(train_matrix, train_target, feature_names,
train_id, test_matrix, test_id, test_target, build=True)`.  Default names
`f0..fN-1` are generated when none are supplied; the `db_store` calls only
write to the external store and do not affect the returned value, and the
uuid arguments feed only those calls, so both are omitted.  The function
has a `return` statement only on the path `expand` / test matrix present /
`build`; every other path falls off the end of the function body and
returns Python `None`, modelled as `.ok none`. -/
noncomputable def from_matrix (ext : Ext) (cfg : Cfg) (train : Mat)
    (target : List ℚ) (feature_names : Option (List String))
    (test : Option Mat) (ttgt : Option (List ℚ)) (build : Bool) :
    Except PyErr (Option (List String × Mat × Option Mat)) :=
  let names := match feature_names with
    | some ns => ns
    | none => (List.range (train.headD []).length).map
        (fun i => "f" ++ toString i)
  ((if build then
      (let limit0 := if (train.headD []).length < train.length
         then (train.headD []).length else train.length
       (build_model ext cfg train target (some names) test ttgt
         (some limit0)).map (fun x => some x))
    else .ok none)).bind (fun _im =>
    if cfg.expand then
      let ex := expand_matrix ext train names true
      match test with
      | some te =>
        let testE := (expand_matrix ext te [] false).1
        if build then
          (build_model ext cfg ex.1 target (some ex.2) (some testE) ttgt
            (some ex.1.length)).map (fun x => some x)
        else .ok none
      | none => .ok none
    else .ok none)

/-! ### Concrete fixtures used by witnesses and counterexamples -/

/-- A concrete instantiation of the external collaborators for evaluating
the pipeline on small inputs: cleaning and standardization act as the
identity, the ridge primitive returns the coefficients `[1, 2]`, the
lasso primitive returns the full ordering `[0, 1]`, and every screening
primitive rejects nothing. -/
def ext0 : Ext :=
  ⟨fun m t => (m, t, []),
   fun m t => (m, t),
   fun _ _ _ _ _ _ => 0,
   fun _ _ => 0,
   fun _ _ _ => [1, 2],
   fun _ _ _ _ _ _ _ _ => ([0], 1, [0, 1]),
   fun _ _ _ _ _ _ _ _ => [],
   fun _ _ _ _ => [],
   fun _ _ _ => [],
   fun _ m t => (m, t),
   fun m => m,
   fun m => m,
   fun m _ _ => m,
   fun m _ _ => m,
   fun ns _ => ns,
   fun ns _ _ => ns,
   fun ns _ _ => ns⟩

/-- Configuration with `expand=False`, `optimize=False`, `size=None` and the
constructor defaults elsewhere. -/
def cfgNoExpand : Cfg := ⟨"rrcs", "kendall", true, true, false, false, none, 1 / 2, 1 / 1000⟩

/-- Configuration with `optimize=False` and a fixed `size=1`. -/
def cfgSize1 : Cfg := ⟨"rrcs", "kendall", true, true, false, false, some 1, 1 / 2, 1 / 1000⟩

/-- Configuration with `optimize=False` and a fixed `size=5`. -/
def cfgSize5 : Cfg := ⟨"rrcs", "kendall", true, true, false, false, some 5, 1 / 2, 1 / 1000⟩

/-- A 2-sample, 2-feature training matrix. -/
def train0 : Mat := [[1, 2], [3, 4]]

/-- Training targets for `train0`. -/
def target0 : List ℚ := [1, 2]

/-- A 1-sample test matrix. -/
def te0 : Mat := [[5, 6]]

/-- Test target for `te0`. -/
def tt0 : List ℚ := [1]

/-- Feature names for `train0`. -/
def names0 : List String := ["f0", "f1"]

/-- A connections matrix for a 3-atom path `0 - 1 - 2`: the end atoms have
degree 1 and the middle atom degree 2. -/
def cmPath : List (List ℚ) := [[0, 1, 0], [1, 0, 1], [0, 1, 0]]

/-- The connections matrix of a fully connected cluster of `n` atoms: every
atom is connected to the `n - 1` others. -/
def cmComplete (n : ℕ) : List (List ℚ) :=
  (List.range n).map (fun i =>
    (List.range n).map (fun j => if i = j then 0 else 1))

/-- The connections matrix of a fully connected 13-atom cluster: every atom
has coordination number 12. -/
def cmK13 : List (List ℚ) := cmComplete 13

/-! ### C3: generalized coordination -/

/-- Folding an `if`-guarded accumulation counts the passing elements. -/
lemma foldl_ite_add (l : List ℕ) (a c : ℚ) (P : ℕ → Prop) [DecidablePred P] :
    l.foldl (fun tot j => if P j then tot + c else tot) a
      = a + ((l.filter (fun j => decide (P j))).length : ℚ) * c := by
  induction l generalizing a with
  | nil => simp
  | cons x xs ih =>
    by_cases h : P x
    · rw [List.foldl_cons, if_pos h, ih,
        List.filter_cons_of_pos (by simpa using h), List.length_cons]
      push_cast
      ring
    · rw [List.foldl_cons, if_neg h, ih,
        List.filter_cons_of_neg (by simpa using h)]

/-- Counting indices with a nonzero entry equals counting nonzero entries. -/
lemma count_nonzero_indices (r : List ℚ) :
    ((List.range r.length).filter (fun j => decide (r.getD j 0 ≠ 0))).length
      = (r.filter (fun x => decide (x ≠ 0))).length := by
  induction r with
  | nil => simp
  | cons x xs ih =>
    have hmap : ((List.range xs.length).map Nat.succ).filter
          (fun j => decide ((x :: xs).getD j 0 ≠ 0))
        = ((List.range xs.length).filter
            (fun j => decide (xs.getD j 0 ≠ 0))).map Nat.succ := by
      rw [List.filter_map]
      congr 1
    rw [List.length_cons, List.range_succ_eq_map]
    by_cases h : x ≠ 0
    · rw [List.filter_cons_of_pos (by simpa using h),
        List.filter_cons_of_pos (by simpa using h), hmap,
        List.length_cons, List.length_cons, List.length_map, ih]
    · have hx : x = 0 := not_not.mp h
      rw [List.filter_cons_of_neg (by simp [hx]),
        List.filter_cons_of_neg (by simp [hx]), hmap,
        List.length_map, ih]

/-- Each row of `generalized_matrix` is (number of nonzero entries of the
row) × (sum of the row) / 12. -/
lemma generalized_matrix_eq (cm : List (List ℚ)) :
    generalized_matrix cm
      = cm.map (fun r =>
          ((r.filter (fun x => decide (x ≠ 0))).length : ℚ) * r.sum / 12) := by
  unfold generalized_matrix
  apply List.map_congr_left
  intro r _
  rw [foldl_ite_add (List.range r.length) 0 r.sum (fun j => r.getD j 0 ≠ 0),
    count_nonzero_indices]
  ring

/-- Row sum in the complete-cluster matrix: `n - 1` on real rows. -/
lemma complete_row_sum (i n : ℕ) :
    ((List.range n).map (fun j => if i = j then (0 : ℚ) else 1)).sum
      = if i < n then (n : ℚ) - 1 else n := by
  induction n with
  | zero => simp
  | succ n ih =>
    rw [List.range_succ, List.map_append, List.sum_append, ih]
    simp only [List.map_cons, List.map_nil, List.sum_cons, List.sum_nil]
    rcases lt_trichotomy i n with h | h | h
    · rw [if_pos h, if_pos (Nat.lt_succ_of_lt h), if_neg (Nat.ne_of_lt h)]
      push_cast
      ring
    · subst h
      rw [if_neg (lt_irrefl i), if_pos rfl, if_pos (Nat.lt_succ_self i)]
      push_cast
      ring
    · rw [if_neg (by omega), if_neg (by omega), if_neg (by omega)]
      push_cast
      ring

/-- Nonzero count in a complete-cluster row: `n - 1` on real rows. -/
lemma complete_row_count (i n : ℕ) :
    (((List.range n).map (fun j => if i = j then (0 : ℚ) else 1)).filter
        (fun x => decide (x ≠ 0))).length
      = if i < n then n - 1 else n := by
  induction n with
  | zero => simp
  | succ n ih =>
    rw [List.range_succ, List.map_append, List.filter_append,
      List.length_append, ih]
    simp only [List.map_cons, List.map_nil]
    by_cases h : i = n
    · subst h
      rw [List.filter_cons_of_neg (by simp)]
      simp only [List.filter_nil, List.length_nil]
      rw [if_neg (lt_irrefl i), if_pos (Nat.lt_succ_self i)]
      omega
    · rw [List.filter_cons_of_pos (by simp [h])]
      simp only [List.filter_nil, List.length_cons, List.length_nil]
      rcases Nat.lt_or_ge i n with hlt | hge
      · rw [if_pos hlt, if_pos (by omega)]
        omega
      · rw [if_neg (by omega), if_neg (by omega)]

/-- Every generalized-coordination value of the complete `n`-cluster is
`(n-1)² / 12`. -/
lemma generalized_complete (n : ℕ) :
    generalized_matrix (cmComplete n)
      = List.replicate n ((((n : ℚ) - 1) * ((n : ℚ) - 1)) / 12) := by
  rw [generalized_matrix_eq]
  unfold cmComplete
  rw [List.map_map]
  apply (List.eq_replicate_iff.mpr)
  refine ⟨by simp, ?_⟩
  intro b hb
  obtain ⟨i, hi, rfl⟩ := List.mem_map.mp hb
  have hin : i < n := List.mem_range.mp hi
  simp only [Function.comp]
  rw [complete_row_count, complete_row_sum, if_pos hin, if_pos hin]
  have h1 : 1 ≤ n := Nat.one_le_of_lt (Nat.lt_of_le_of_lt (Nat.zero_le i) hin)
  push_cast [Nat.cast_sub h1]
  ring

/-- C3 counterexample: on the 3-atom path the code's generalized
coordination of atom 0 is `(1 × 1)/12 = 1/12`, not the spec's "(sum of the
connected atoms' own connectivity degree) / 12" `= 2/12`: the code adds the
row's own sum once per neighbor instead of the neighbors' degrees. -/
theorem generalized_matrix_spec_counterexample :
    (generalized_matrix cmPath).getD 0 0
      ≠ (generalized_matrix_specform cmPath).getD 0 0 := by
  unfold generalized_matrix generalized_matrix_specform cmPath
  norm_num [List.range_succ, List.getD_cons_zero, List.getD_cons_succ]

/-- C3 amended: for every connectivity matrix, the generalized-coordination
value of atom `i` equals (number of atoms connected to `i`) × (row sum of
`i`) / 12 — for a binary matrix, degree²/12; consequently every value is
non-negative when the entries are non-negative, and for a fully-connected
reference cluster in which every atom has coordination 12 the value is 12
(not 1) for every atom. -/
theorem generalized_matrix_amended (cm : List (List ℚ))
    (h : ∀ r ∈ cm, ∀ x ∈ r, 0 ≤ x) :
    generalized_matrix cm
        = cm.map (fun r =>
            ((r.filter (fun x => decide (x ≠ 0))).length : ℚ) * r.sum / 12)
      ∧ (∀ v ∈ generalized_matrix cm, 0 ≤ v)
      ∧ generalized_matrix cmK13 = List.replicate 13 12 := by
  refine ⟨generalized_matrix_eq cm, ?_, ?_⟩
  · intro v hv
    rw [generalized_matrix_eq cm] at hv
    obtain ⟨r, hr, rfl⟩ := List.mem_map.mp hv
    have hsum : 0 ≤ r.sum := List.sum_nonneg (fun x hx => h r hr x hx)
    positivity
  · unfold cmK13
    rw [generalized_complete]
    norm_num

/-- Witness for C3's amended theorem at the concrete path matrix. -/
theorem generalized_matrix_amended_witness :
    generalized_matrix cmPath
      = cmPath.map (fun r =>
          ((r.filter (fun x => decide (x ≠ 0))).length : ℚ) * r.sum / 12) :=
  (generalized_matrix_amended cmPath (by decide)).1

/-! ### C4: neighbor lists and the connection matrix -/

/-- The Euclidean norm of a position difference is symmetric. -/
lemma norm3_comm (p q : ℝ × ℝ × ℝ) : norm3 p q = norm3 q p := by
  unfold norm3
  congr 1
  ring

/-- The distance from a position to itself is zero. -/
lemma norm3_self (p : ℝ × ℝ × ℝ) : norm3 p p = 0 := by
  unfold norm3
  simp

/-- List elements through `getD` on a mapped range. -/
lemma getD_map_range {α : Type} (f : ℕ → α) (n i : ℕ) (hi : i < n) (d : α) :
    ((List.range n).map f).getD i d = f i := by
  rw [List.getD_eq_getElem?_getD, List.getElem?_map, List.getElem?_range hi]
  rfl

/-- Membership in a first-shell neighbor list, characterized by the source's
conditions `atomi.index != atomj.index`, `d > 0` and `d < 1*(crj+cri)+dx`. -/
lemma mem_get_neighborlist (cr : ℕ → ℝ) (atoms : List PyAtom) (dx : ℝ)
    (i j : ℕ) (hj : j < atoms.length) :
    j ∈ get_neighborlist cr atoms dx 1 i ↔
      (i ≠ j ∧
       0 < norm3 (atoms.getD i default).position
         (atoms.getD j default).position ∧
       norm3 (atoms.getD i default).position (atoms.getD j default).position
         < 1 * (cr (atoms.getD j default).number
             + cr (atoms.getD i default).number) + dx) := by
  unfold get_neighborlist
  simp only [List.mem_map, List.mem_filter, decide_eq_true_eq, if_pos rfl,
    Nat.cast_one]
  constructor
  · rintro ⟨⟨k, a⟩, ⟨hmem, hcond⟩, hk⟩
    simp only at hk
    subst hk
    have hja : atoms[k]? = some a := List.mk_mem_enum_iff_getElem?.mp hmem
    have ha : a = atoms.getD k default := by
      rw [List.getD_eq_getElem?_getD, hja]
      rfl
    subst ha
    exact hcond
  · rintro ⟨hne, h1, h2⟩
    refine ⟨(j, atoms.getD j default), ⟨?_, ⟨hne, h1, h2⟩⟩, rfl⟩
    apply List.mk_mem_enum_iff_getElem?.mpr
    rw [List.getElem?_eq_getElem hj, List.getD_eq_getElem?_getD,
      List.getElem?_eq_getElem hj]
    rfl

/-- An in-range entry of the connection matrix is the indicator of
neighbor-list membership. -/
lemma connection_matrix_entry (cr : ℕ → ℝ) (atoms : List PyAtom) (dx : ℝ)
    (i j : ℕ) (hi : i < atoms.length) (hj : j < atoms.length) :
    ((connection_matrix cr atoms dx none).getD i []).getD j 0
      = if j ∈ get_neighborlist cr atoms dx 1 i then (1 : ℝ) else 0 := by
  unfold connection_matrix
  rw [getD_map_range _ _ _ hi, getD_map_range _ _ _ hj]

/-- C4: with `neighbor_number=1` and buffer `dx`, atom `j` is in atom `i`'s
neighbor list iff their distance `d` satisfies `0 < d < (r_i + r_j) + dx`
(the `i ≠ j` guard of the code is implied, because `i = j` forces `d = 0`);
consequently the binary connection matrix built from these lists is
symmetric and has zero diagonal. -/
theorem neighborlist_connection (cr : ℕ → ℝ) (atoms : List PyAtom) (dx : ℝ)
    (i j : ℕ) (hi : i < atoms.length) (hj : j < atoms.length) :
    (j ∈ get_neighborlist cr atoms dx 1 i ↔
      0 < norm3 (atoms.getD i default).position
        (atoms.getD j default).position ∧
      norm3 (atoms.getD i default).position (atoms.getD j default).position
        < cr (atoms.getD i default).number
            + cr (atoms.getD j default).number + dx)
    ∧ ((connection_matrix cr atoms dx none).getD i []).getD j 0
        = ((connection_matrix cr atoms dx none).getD j []).getD i 0
    ∧ ((connection_matrix cr atoms dx none).getD i []).getD i 0 = 0 := by
  have hsymm_rhs : ∀ a b : ℕ,
      (a ≠ b ∧
        0 < norm3 (atoms.getD a default).position
          (atoms.getD b default).position ∧
        norm3 (atoms.getD a default).position (atoms.getD b default).position
          < 1 * (cr (atoms.getD b default).number
              + cr (atoms.getD a default).number) + dx) ↔
      (b ≠ a ∧
        0 < norm3 (atoms.getD b default).position
          (atoms.getD a default).position ∧
        norm3 (atoms.getD b default).position (atoms.getD a default).position
          < 1 * (cr (atoms.getD a default).number
              + cr (atoms.getD b default).number) + dx) := by
    intro a b
    rw [ne_comm, norm3_comm, add_comm (cr (atoms.getD b default).number)]
  refine ⟨?_, ?_, ?_⟩
  · rw [mem_get_neighborlist cr atoms dx i j hj]
    constructor
    · rintro ⟨hne, h1, h2⟩
      rw [one_mul] at h2
      exact ⟨h1, by linarith⟩
    · rintro ⟨h1, h2⟩
      refine ⟨?_, h1, by rw [one_mul]; linarith⟩
      intro hij
      rw [hij, norm3_self] at h1
      exact lt_irrefl 0 h1
  · rw [connection_matrix_entry cr atoms dx i j hi hj,
      connection_matrix_entry cr atoms dx j i hj hi]
    apply if_congr _ rfl rfl
    rw [mem_get_neighborlist cr atoms dx i j hj,
      mem_get_neighborlist cr atoms dx j i hi]
    exact hsymm_rhs i j
  · rw [connection_matrix_entry cr atoms dx i i hi hi, if_neg]
    intro hmem
    exact ((mem_get_neighborlist cr atoms dx i i hi).mp hmem).1 rfl

/-- Concrete covalent-radius table for the C4 witness. -/
def crW : ℕ → ℝ := fun _ => 1

/-- Two concrete atoms one length unit apart. -/
def atomsW : List PyAtom := [⟨(0, 0, 0), 1⟩, ⟨(1, 0, 0), 1⟩]

/-- Witness for C4 at a concrete two-atom structure. -/
theorem neighborlist_connection_witness :
    ((1 : ℕ) ∈ get_neighborlist crW atomsW (1 / 5) 1 0 ↔
      0 < norm3 (atomsW.getD 0 default).position
        (atomsW.getD 1 default).position ∧
      norm3 (atomsW.getD 0 default).position (atomsW.getD 1 default).position
        < crW (atomsW.getD 0 default).number
            + crW (atomsW.getD 1 default).number + 1 / 5)
    ∧ ((connection_matrix crW atomsW (1 / 5) none).getD 0 []).getD 1 0
        = ((connection_matrix crW atomsW (1 / 5) none).getD 1 []).getD 0 0
    ∧ ((connection_matrix crW atomsW (1 / 5) none).getD 0 []).getD 0 0 = 0 :=
  neighborlist_connection crW atomsW (1 / 5) 0 1 (by decide) (by decide)

/-! ### C8: hyperparameter optimization through make_prediction -/

/-- C8: every call to `make_prediction` with `opt_h=True` raises `TypeError`
before any optimization runs, because it calls `hyp_opt` with keyword
arguments `width` and `reg` that `hyp_opt(self, features, train_target)`
does not accept; consequently a successful call never changes the stored
kernel width or regularization. -/
theorem make_prediction_opt_h (ext : Ext) (cfg : Cfg) (train : Mat)
    (test : Option Mat) (target : List ℚ) (ttgt : Option (List ℚ)) :
    make_prediction ext cfg train test target ttgt true = .error .typeError
    ∧ ∀ b q c', make_prediction ext cfg train test target ttgt b
        = .ok (q, c') →
        c'.width = cfg.width ∧ c'.regularization = cfg.regularization := by
  refine ⟨rfl, ?_⟩
  intro b q c' h
  cases b
  · simp only [make_prediction, Bool.false_eq_true, if_false,
      Except.ok.injEq, Prod.mk.injEq] at h
    rw [← h.2]
    exact ⟨rfl, rfl⟩
  · simp [make_prediction] at h

/-- Witness for C8 at a concrete input. -/
theorem make_prediction_opt_h_witness :
    make_prediction ext0 cfgNoExpand train0 (some te0) target0 (some tt0) true
      = .error .typeError :=
  (make_prediction_opt_h ext0 cfgNoExpand train0 (some te0) target0
    (some tt0)).1

/-! ### C6: the fixed-size assertion in build_model -/

/-- C6: when a fixed `size` is configured, `build_model` raises the fatal
assertion whenever the feature count remaining after zero-variance cleaning
(unchanged by standardization, hypothesis `hpres`) is not strictly greater
than `size`.  The conclusion holds for every instantiation of the predictor
and reduction primitives in `ext`, so the check precedes any predictor
fitting or reduction work. -/
theorem build_model_size_assert (ext : Ext) (cfg : Cfg) (train : Mat)
    (target : List ℚ) (names : Option (List String)) (test : Option Mat)
    (ttgt : Option (List ℚ)) (limit : Option ℕ) (s : ℕ)
    (ct st : Mat) (cte ste : Option Mat) (idx : List ℕ) (r0 : List ℚ)
    (hsz : cfg.size = some s)
    (hclean : ext.clean_zero train test = (ct, cte, idx))
    (hstd : ext.standardize ct cte = (st, ste))
    (hhead : st.head? = some r0)
    (hpres : r0.length = (ct.headD []).length)
    (hcount : (ct.headD []).length ≤ s) :
    build_model ext cfg train target names test ttgt limit
      = .error .assertionError := by
  unfold build_model
  simp only [hclean, hstd, hsz, hhead]
  rw [if_neg (by omega)]
  rfl

/-- Witness for C6 at a concrete 1×2 matrix and `size=5`. -/
theorem build_model_size_assert_witness :
    build_model ext0 cfgSize5 [[1, 2]] [1] (some ["f0", "f1"]) none none none
      = .error .assertionError :=
  build_model_size_assert ext0 cfgSize5 [[1, 2]] [1] (some ["f0", "f1"])
    none none none 5 [[1, 2]] [[1, 2]] none none [] [1, 2]
    rfl rfl rfl rfl rfl (by decide)

/-! ### C10: a test matrix is required by the reduction path -/

/-- With no test matrix, `ridge_regression` raises: `UnboundLocalError`
on the `return sort_list, error` when names are present, and never
succeeds. -/
lemma ridge_none_test (ext : Ext) (train : Mat) (target : List ℚ)
    (names : Option (List String)) (ttgt : Option (List ℚ)) :
    (∀ ns, names = some ns →
      ridge_regression ext train target names none ttgt
        = .error .unboundLocal)
    ∧ ∀ v, ridge_regression ext train target names none ttgt ≠ .ok v := by
  constructor
  · rintro ns rfl
    rfl
  · intro v h
    unfold ridge_regression at h
    cases names with
    | none => simp at h
    | some ns => simp at h

/-- `screening` with no test matrix keeps the test component `none`. -/
lemma screening_none_test (ext : Ext) (cfg : Cfg) (train : Mat)
    (target : List ℚ) (names : Option (List String))
    (x : Mat × Option Mat × Option (List String)) :
    screening ext cfg train target names none = .ok x → x.2.1 = none := by
  intro h
  unfold screening at h
  cases hX : screening_select ext cfg train target names none with
  | error e =>
    rw [hX] at h
    simp [Except.map] at h
  | ok rej =>
    rw [hX] at h
    simp only [Except.map, Except.ok.injEq] at h
    rw [← h]
    rfl

/-- `reduce_post` with no test matrix never succeeds: the ridge step
fails. -/
lemma reduce_post_none (ext : Ext) (cfg : Cfg) (train : Mat)
    (target : List ℚ) (names : Option (List String))
    (ttgt : Option (List ℚ)) (limit : Option ℕ) (n d : ℕ)
    (v : List String × Mat × Option Mat) :
    reduce_post ext cfg train target names none ttgt limit n d ≠ .ok v := by
  intro h
  unfold reduce_post at h
  cases hR : ridge_regression ext train target names none ttgt with
  | error e =>
    rw [hR] at h
    simp [Except.bind] at h
  | ok lin =>
    exact (ridge_none_test ext train target names ttgt).2 lin hR

/-- `reduce_matrix` with no test matrix never succeeds. -/
lemma reduce_none_test_not_ok (ext : Ext) (cfg : Cfg) (train : Mat)
    (target : List ℚ) (names : Option (List String))
    (ttgt : Option (List ℚ)) (limit : Option ℕ)
    (v : List String × Mat × Option Mat) :
    reduce_matrix ext cfg train target names none ttgt limit ≠ .ok v := by
  intro h
  unfold reduce_matrix at h
  by_cases hl : limit_ok limit (train.headD []).length
  · rw [if_pos hl] at h
    by_cases hd : (train.headD []).length > train.length
    · rw [if_pos hd] at h
      cases hS : screening ext cfg train target names none with
      | error e =>
        rw [hS] at h
        simp [Except.bind] at h
      | ok x =>
        rw [hS] at h
        simp only [Except.bind] at h
        rw [screening_none_test ext cfg train target names x hS] at h
        exact reduce_post_none ext cfg x.1 target x.2.2 ttgt limit
          train.length (train.headD []).length v h
    · rw [if_neg hd] at h
      simp only [Except.bind] at h
      exact reduce_post_none ext cfg train target names ttgt limit
        train.length (train.headD []).length v h
  · rw [if_neg hl] at h
    simp at h

/-- C10: without a test matrix `ridge_regression` raises
`UnboundLocalError` (its `error` variable is assigned only when a test
matrix is present but is returned unconditionally), so `reduce_matrix`
never returns a value: the model-building path requires a test set. -/
theorem reduce_matrix_requires_test (ext : Ext) (cfg : Cfg) (train : Mat)
    (target : List ℚ) (ns : List String) (names : Option (List String))
    (ttgt : Option (List ℚ)) (limit : Option ℕ) :
    ridge_regression ext train target (some ns) none ttgt
      = .error .unboundLocal
    ∧ ∀ v, reduce_matrix ext cfg train target names none ttgt limit
        ≠ .ok v :=
  ⟨(ridge_none_test ext train target (some ns) ttgt).1 ns rfl,
   fun v => reduce_none_test_not_ok ext cfg train target names ttgt limit v⟩

/-- Witness for C10 at a concrete input. -/
theorem reduce_matrix_requires_test_witness :
    ridge_regression ext0 train0 target0 (some names0) none none
      = .error .unboundLocal :=
  (reduce_matrix_requires_test ext0 cfgNoExpand train0 target0 names0
    (some names0) none none).1

/-! ### C5: screening thresholds and atomic column drops -/

/-- C5: in `reduce_matrix` with an `n`-row, `d`-column train matrix,
screening runs iff `d > n` (first two conjuncts); inside `screening` the
iterative variant is chosen iff `d > 2n`, with step `stepSize d n`
(`round(sqrt(log(d/n)))` floored at 1), otherwise a single pass of the
configured method runs; either way the rejected columns are dropped from
the train matrix, the test matrix and the name list together. -/
theorem screening_stage_selection (ext : Ext) (cfg : Cfg) (train : Mat)
    (target : List ℚ) (names : Option (List String)) (test : Option Mat)
    (ttgt : Option (List ℚ)) (limit : Option ℕ)
    (hm : cfg.screening_method = "rrcs" ∨ cfg.screening_method = "sis")
    (hlim : limit_ok limit (train.headD []).length = true) :
    ((train.headD []).length ≤ train.length →
      reduce_matrix ext cfg train target names test ttgt limit
        = reduce_post ext cfg train target names test ttgt limit
            train.length (train.headD []).length)
    ∧ (train.length < (train.headD []).length →
      reduce_matrix ext cfg train target names test ttgt limit
        = (screening ext cfg train target names test).bind (fun x =>
            reduce_post ext cfg x.1 target x.2.2 x.2.1 ttgt limit
              train.length (train.headD []).length))
    ∧ (2 * train.length < (train.headD []).length →
      screening ext cfg train target names test
        = .ok (npDeleteCols train (ext.iterative_screening target train test
              train.length (stepSize (train.headD []).length train.length)
              cfg.screening_method cfg.screening_correlation names),
            test.map (fun te => npDeleteCols te
              (ext.iterative_screening target train test train.length
                (stepSize (train.headD []).length train.length)
                cfg.screening_method cfg.screening_correlation names)),
            names.map (fun ns => npDeleteVec ns
              (ext.iterative_screening target train test train.length
                (stepSize (train.headD []).length train.length)
                cfg.screening_method cfg.screening_correlation names))))
    ∧ ((train.headD []).length ≤ 2 * train.length →
      screening ext cfg train target names test
        = .ok (npDeleteCols train (if cfg.screening_method = "rrcs"
              then ext.rr_screen target train train.length
                cfg.screening_correlation
              else ext.sure_screen target train train.length),
            test.map (fun te => npDeleteCols te
              (if cfg.screening_method = "rrcs"
               then ext.rr_screen target train train.length
                 cfg.screening_correlation
               else ext.sure_screen target train train.length)),
            names.map (fun ns => npDeleteVec ns
              (if cfg.screening_method = "rrcs"
               then ext.rr_screen target train train.length
                 cfg.screening_correlation
               else ext.sure_screen target train train.length)))) := by
  refine ⟨?_, ?_, ?_, ?_⟩
  · intro h
    unfold reduce_matrix
    rw [if_pos hlim, if_neg (by omega)]
    rfl
  · intro h
    unfold reduce_matrix
    rw [if_pos hlim, if_pos (by omega)]
  · intro h
    unfold screening screening_select
    rw [if_pos (by omega)]
    rfl
  · intro h
    unfold screening screening_select
    rw [if_neg (by omega)]
    rcases hm with hm | hm
    · rw [hm]
      rfl
    · rw [hm]
      rw [if_neg (by decide), if_pos rfl, if_neg (by decide)]
      rfl

/-- Witness for C5: on a 2×2 training matrix no screening happens and the
reduction continues on the unscreened matrices. -/
theorem screening_stage_selection_witness :
    reduce_matrix ext0 cfgNoExpand train0 target0 (some names0) (some te0)
        (some tt0) none
      = reduce_post ext0 cfgNoExpand train0 target0 (some names0) (some te0)
          (some tt0) none 2 2 :=
  (screening_stage_selection ext0 cfgNoExpand train0 target0 (some names0)
    (some te0) (some tt0) none (Or.inl rfl) rfl).1 (by decide)

/-! ### C7: expansion preserves the original columns as a prefix -/

/-- Rows of a `zipWith (· ++ ·)` are extensions of rows of the first
argument. -/
lemma mem_zipWith_append (a b : List (List ℚ)) (r : List ℚ)
    (h : r ∈ a.zipWith (· ++ ·) b) : ∃ x ∈ a, ∃ y, r = x ++ y := by
  induction a generalizing b with
  | nil => simp at h
  | cons xa ta ih =>
    cases b with
    | nil => simp at h
    | cons xb tb =>
      simp only [List.zipWith_cons_cons, List.mem_cons] at h
      rcases h with h | h
      · exact ⟨xa, by simp, xb, h⟩
      · obtain ⟨x, hx, y, hy⟩ := ih tb h
        exact ⟨x, by simp [hx], y, hy⟩

/-- Taking the first `d` columns undoes a column-wise append when every row
of the first argument has at least `d` entries. -/
lemma map_take_zipWith (d : ℕ) (a b : List (List ℚ))
    (hd : ∀ r ∈ a, d ≤ r.length) (hl : a.length ≤ b.length) :
    (a.zipWith (· ++ ·) b).map (List.take d) = a.map (List.take d) := by
  induction a generalizing b with
  | nil => simp
  | cons xa ta ih =>
    cases b with
    | nil => simp at hl
    | cons xb tb =>
      simp only [List.zipWith_cons_cons, List.map_cons]
      rw [List.take_append_of_le_length (hd xa (by simp)),
        ih tb (fun r hr => hd r (by simp [hr])) (by simpa using hl)]

/-- C7: `expand_matrix` only appends new columns after the original ones:
restricting every row of the expanded matrix to its first `d` columns
recovers the input matrix exactly, whatever the external combination
primitives return (provided they return one row per input row, as
`np.concatenate` requires). -/
theorem expand_matrix_prefix (ext : Ext) (fm : Mat) (names : List String)
    (d : ℕ) (hd : ∀ r ∈ fm, r.length = d)
    (h1 : (ext.get_order_2 fm).length = fm.length)
    (h2 : (ext.get_div_order_2 fm).length = fm.length)
    (h3 : (ext.get_order_2ab fm 2 4).length = fm.length)
    (h4 : (ext.get_ablog fm 2 4).length = fm.length) :
    (expand_matrix ext fm names true).1.map (List.take d) = fm := by
  unfold expand_matrix
  simp only
  have hz0 : ∀ r ∈ fm, d ≤ r.length := fun r hr => (hd r hr).ge
  have hz1 : ∀ r ∈ fm.zipWith (· ++ ·) (ext.get_order_2 fm),
      d ≤ r.length := by
    intro r hr
    obtain ⟨x, hx, y, rfl⟩ := mem_zipWith_append _ _ _ hr
    rw [List.length_append]
    exact le_trans (hz0 x hx) (Nat.le_add_right _ _)
  have hz2 : ∀ r ∈ (fm.zipWith (· ++ ·) (ext.get_order_2 fm)).zipWith
      (· ++ ·) (ext.get_div_order_2 fm), d ≤ r.length := by
    intro r hr
    obtain ⟨x, hx, y, rfl⟩ := mem_zipWith_append _ _ _ hr
    rw [List.length_append]
    exact le_trans (hz1 x hx) (Nat.le_add_right _ _)
  have hz3 : ∀ r ∈ ((fm.zipWith (· ++ ·) (ext.get_order_2 fm)).zipWith
      (· ++ ·) (ext.get_div_order_2 fm)).zipWith (· ++ ·)
      (ext.get_order_2ab fm 2 4), d ≤ r.length := by
    intro r hr
    obtain ⟨x, hx, y, rfl⟩ := mem_zipWith_append _ _ _ hr
    rw [List.length_append]
    exact le_trans (hz2 x hx) (Nat.le_add_right _ _)
  have hl1 : (fm.zipWith (· ++ ·) (ext.get_order_2 fm)).length
      = fm.length := by
    rw [List.length_zipWith, h1, min_self]
  have hl2 : ((fm.zipWith (· ++ ·) (ext.get_order_2 fm)).zipWith (· ++ ·)
      (ext.get_div_order_2 fm)).length = fm.length := by
    rw [List.length_zipWith, hl1, h2, min_self]
  have hl3 : (((fm.zipWith (· ++ ·) (ext.get_order_2 fm)).zipWith (· ++ ·)
      (ext.get_div_order_2 fm)).zipWith (· ++ ·)
      (ext.get_order_2ab fm 2 4)).length = fm.length := by
    rw [List.length_zipWith, hl2, h3, min_self]
  rw [map_take_zipWith d _ _ hz3 (by rw [hl3, h4]),
    map_take_zipWith d _ _ hz2 (by rw [hl2, h3]),
    map_take_zipWith d _ _ hz1 (by rw [hl1, h2]),
    map_take_zipWith d _ _ hz0 (by rw [h1])]
  have hall : ∀ r ∈ fm, r.take d = r :=
    fun r hr => List.take_of_length_le (hd r hr).le
  rw [List.map_congr_left hall]
  simp

/-- Witness for C7 at a concrete 1×2 matrix. -/
theorem expand_matrix_prefix_witness :
    (expand_matrix ext0 [[1, 2]] ["a"] true).1.map (List.take 2)
      = [[1, 2]] :=
  expand_matrix_prefix ext0 [[1, 2]] ["a"] 2 (by decide) rfl rfl rfl rfl

/-! ### C9: optimize=False with size=None deletes every ordered column -/

/-- An enumerated index is below the list length. -/
lemma fst_lt_of_mem_enum {α : Type} {l : List α} {p : ℕ × α}
    (h : p ∈ l.enum) : p.1 < l.length := by
  obtain ⟨k, a⟩ := p
  have := List.mk_mem_enum_iff_getElem?.mp h
  exact (List.getElem?_eq_some.mp this).1

/-- Deleting a covering index set empties a row. -/
lemma npDeleteVec_all {α : Type} (r : List α) (idx : List ℕ)
    (h : ∀ j, j < r.length → j ∈ idx) : npDeleteVec r idx = [] := by
  unfold npDeleteVec
  rw [List.map_eq_nil_iff]
  rw [List.filter_eq_nil_iff]
  intro p hp
  have hlt : p.1 < r.length := fst_lt_of_mem_enum hp
  simp only [Bool.not_eq_true', Bool.not_eq_false]
  exact List.elem_eq_true_of_mem (h p.1 hlt)

/-- Deleting a covering index set empties every row of a matrix. -/
lemma npDeleteCols_all (m : Mat) (idx : List ℕ) (d : ℕ)
    (hrow : ∀ r ∈ m, r.length = d) (h : ∀ j, j < d → j ∈ idx) :
    npDeleteCols m idx = m.map (fun _ => ([] : List ℚ)) := by
  unfold npDeleteCols
  apply List.map_congr_left
  intro r hr
  exact npDeleteVec_all r idx (fun j hj => h j ((hrow r hr) ▸ hj))

/-- With names, a test matrix and a test target all present,
`ridge_regression` does not raise. -/
lemma ridge_some_ne_error (ext : Ext) (train : Mat) (target : List ℚ)
    (ns : List String) (te : Mat) (tt : List ℚ) (e : PyErr) :
    ridge_regression ext train target (some ns) (some te) (some tt)
      ≠ .error e :=
  fun h => Except.noConfusion h

/-- C9: when `optimize` is `False` and `size` is `None`, `reduce_matrix`
slices the lasso ordering as `mo[None:]`, i.e. the whole ordering, and
deletes every one of those columns from the returned train and test
matrices; when the ordering covers all `d` column indices the returned
matrices have every feature column removed (all rows empty) instead of
being left at full size. -/
theorem reduce_matrix_none_size (ext : Ext) (cfg : Cfg) (train : Mat)
    (target : List ℚ) (ns : List String) (te : Mat) (tt : List ℚ)
    (limit : Option ℕ)
    (hopt : cfg.optimize = false) (hsz : cfg.size = none)
    (hdn : (train.headD []).length ≤ train.length)
    (hlim : limit_ok limit (train.headD []).length = true)
    (hrow : ∀ r ∈ train, r.length = (train.headD []).length)
    (hrowte : ∀ r ∈ te, r.length = (train.headD []).length)
    (hcov : ∀ j, j < (train.headD []).length →
      j ∈ (ext.lasso (train.headD []).length target train (some te)
            (some tt) (1 / 10) 1000000 20).2.2) :
    (reduce_matrix ext cfg train target (some ns) (some te) (some tt)
        limit).toOption.map (fun t => (t.2.1, t.2.2))
      = some (npDeleteCols train
            (ext.lasso (train.headD []).length target train (some te)
              (some tt) (1 / 10) 1000000 20).2.2,
          some (npDeleteCols te
            (ext.lasso (train.headD []).length target train (some te)
              (some tt) (1 / 10) 1000000 20).2.2))
    ∧ npDeleteCols train
        (ext.lasso (train.headD []).length target train (some te) (some tt)
          (1 / 10) 1000000 20).2.2 = train.map (fun _ => ([] : List ℚ))
    ∧ npDeleteCols te
        (ext.lasso (train.headD []).length target train (some te) (some tt)
          (1 / 10) 1000000 20).2.2 = te.map (fun _ => ([] : List ℚ)) := by
  refine ⟨?_, npDeleteCols_all train _ _ hrow hcov,
    npDeleteCols_all te _ _ hrowte hcov⟩
  unfold reduce_matrix
  rw [if_pos hlim, if_neg (by omega)]
  cases hR : ridge_regression ext train target (some ns) (some te) (some tt)
    with
  | error e => exact absurd hR (ridge_some_ne_error ext train target ns te tt e)
  | ok lin =>
    simp only [Except.bind]
    unfold reduce_post
    rw [hR]
    simp only [Except.bind, hopt, Bool.false_eq_true, if_false, hsz,
      lasso_opt, Option.getD_none, List.drop_zero]
    rfl

/-- Witness for C9 at the concrete 2×2 matrix: all lasso-ordered columns
are deleted and the matrices come back with empty rows. -/
theorem reduce_matrix_none_size_witness :
    (reduce_matrix ext0 cfgNoExpand train0 target0 (some names0) (some te0)
        (some tt0) none).toOption.map (fun t => (t.2.1, t.2.2))
      = some (npDeleteCols train0
            (ext0.lasso 2 target0 train0 (some te0) (some tt0)
              (1 / 10) 1000000 20).2.2,
          some (npDeleteCols te0
            (ext0.lasso 2 target0 train0 (some te0) (some tt0)
              (1 / 10) 1000000 20).2.2)) :=
  (reduce_matrix_none_size ext0 cfgNoExpand train0 target0 names0 te0 tt0
    none rfl rfl (by decide) rfl (by decide) (by decide) (by decide)).1

/-! ### C2: feature names end up misaligned with the matrix columns -/

/-- C2 failing input: `reduce_matrix` on a 2×2 matrix with `optimize=False`
and `size=1`.  The ridge step rebinds `feature_names` to the name list
sorted by descending `|coef|` (`["f1", "f0"]`) without reordering the
matrix columns, and the final truncation then deletes the columns
`mo[1:] = [1]` from the matrices without touching the name list: the
returned name list has 2 entries while the returned train matrix has 1
column, and the surviving column is the original column 0 (`"f0"`) even
though the name list starts with `"f1"`. -/
theorem reduce_matrix_misaligned_names :
    reduce_matrix ext0 cfgSize1 train0 target0 (some names0) (some te0)
        (some tt0) none
      = .ok (["f1", "f0"], [[1], [3]], some [[5]])
    ∧ (["f1", "f0"] : List String).length
        ≠ (([[1], [3]] : Mat).headD []).length := by
  exact ⟨rfl, by decide⟩

/-! ### C1: what the public entry point actually returns -/

/-- A build result that is mapped to `some` and then discarded by a path
ending in `return None` can never produce `.ok (some t)`. -/
lemma bind_map_some_ok_none {γ δ : Type} (B : Except PyErr γ) (t : δ) :
    (B.map (fun x => some x)).bind
      (fun _im => (.ok none : Except PyErr (Option δ))) ≠ .ok (some t) := by
  cases B <;> simp [Except.map, Except.bind]

/-- Splitting a successful `Except.bind`. -/
lemma except_bind_ok {ε α β : Type} (e : Except ε α) (f : α → Except ε β)
    (v : β) (h : e.bind f = .ok v) : ∃ a, e = .ok a ∧ f a = .ok v := by
  cases e with
  | error er => simp [Except.bind] at h
  | ok a => exact ⟨a, rfl, h⟩

/-- `build_model` with no test matrix never succeeds (provided the external
cleaning and standardization keep a `None` test matrix `None`, which the
real collaborators do): the reduction's ridge step raises. -/
lemma build_model_none_test_not_ok (ext : Ext) (cfg : Cfg) (train : Mat)
    (target : List ℚ) (names : Option (List String))
    (ttgt : Option (List ℚ)) (limit : Option ℕ)
    (hclean : (ext.clean_zero train none).2.1 = none)
    (hstd : ∀ m, (ext.standardize m none).2 = none)
    (v : List String × Mat × Option Mat) :
    build_model ext cfg train target names none ttgt limit ≠ .ok v := by
  intro h
  unfold build_model at h
  simp only [hclean] at h
  simp only [hstd] at h
  obtain ⟨a, _, h⟩ := except_bind_ok _ _ _ h
  obtain ⟨b, _, h⟩ := except_bind_ok _ _ _ h
  exact reduce_none_test_not_ok ext cfg _ target _ ttgt limit v h

/-- C1 counterexample: a call to `from_matrix` with `build=True` but
`expand=False` runs the whole model build and then falls off the end of the
function, returning `None` instead of the `(feature_names, train, test)`
triple — even though a test matrix was supplied and the build succeeded. -/
theorem from_matrix_returns_none :
    from_matrix ext0 cfgNoExpand train0 target0 (some names0) (some te0)
        (some tt0) true = .ok none := by
  rfl

/-- C1 amended: with `build=True` the entry point returns the triple only
on the path where `expand` is set and a test matrix was supplied (wrapped
in `some`); with `expand=False`, or without a test matrix, it never returns
a triple (it returns `None`, or propagates the missing-test failure of the
reduction). -/
theorem from_matrix_return_amended (ext : Ext) (cfg : Cfg) (train : Mat)
    (target : List ℚ) (fnames : Option (List String)) (test : Option Mat)
    (ttgt : Option (List ℚ)) :
    (cfg.expand = false →
      ∀ t, from_matrix ext cfg train target fnames test ttgt true
        ≠ .ok (some t))
    ∧ (test = none →
      ∀ t, from_matrix ext cfg train target fnames test ttgt true
        ≠ .ok (some t))
    ∧ (∀ te t2 ns, cfg.expand = true → test = some te → fnames = some ns →
        (∃ t1, build_model ext cfg train target (some ns) test ttgt
          (some (if (train.headD []).length < train.length
                 then (train.headD []).length else train.length))
          = .ok t1) →
        build_model ext cfg (expand_matrix ext train ns true).1 target
          (some (expand_matrix ext train ns true).2)
          (some ((expand_matrix ext te [] false).1)) ttgt
          (some (expand_matrix ext train ns true).1.length) = .ok t2 →
        from_matrix ext cfg train target fnames test ttgt true
          = .ok (some t2)) := by
  refine ⟨?_, ?_, ?_⟩
  · intro hexp t h
    unfold from_matrix at h
    simp only [eq_self_iff_true, if_true] at h
    rw [hexp] at h
    simp only [Bool.false_eq_true, if_false] at h
    exact bind_map_some_ok_none _ t h
  · rintro rfl t h
    unfold from_matrix at h
    simp only [eq_self_iff_true, if_true] at h
    obtain ⟨a, ha, h⟩ := except_bind_ok _ _ _ h
    simp at h
  · rintro te t2 ns hexp rfl rfl ⟨t1, h1⟩ h2
    unfold from_matrix
    simp only [eq_self_iff_true, if_true]
    rw [h1]
    simp only [Except.map, Except.bind]
    rw [hexp]
    simp only [eq_self_iff_true, if_true]
    rw [h2]

/-- Witness for C1's amended theorem: at the concrete no-expand
configuration the entry point does not return a triple. -/
theorem from_matrix_return_amended_witness :
    from_matrix ext0 cfgNoExpand train0 target0 (some names0) (some te0)
        (some tt0) true ≠ .ok (some (["f1", "f0"], [[1], [3]], some [[5]])) :=
  (from_matrix_return_amended ext0 cfgNoExpand train0 target0 (some names0)
    (some te0) (some tt0)).1 rfl (["f1", "f0"], [[1], [3]], some [[5]])

end CatLearn
